import Mathlib

/-!
Verification of the convertible-bond data collection pipeline.

This file gives a shallow embedding of the pipeline's core operations and
proves the behavioural properties stated in the repository's specification:

* `data_quality_validator.py` — freshness scoring;
* `enhanced_history_pipeline.py` — the robust fetch wrapper, volume unit
  normalization, the primary/valuation merge with null-filling, derived
  metrics (day-over-day change, double-low), and the idempotent insert;
* `data_source_manager.py` — source registry, status updates, and the
  fallback loop over prioritized sources;
* `master_data_collector.py` — gap-date computation for backfill and the
  null-only static-field backfill.

Conventions: pandas `NaN`/SQL `NULL` is `Option.none`; numeric cells are
rationals (the Python floats in these code paths carry exact decimal
values); trading dates are day numbers (`Nat`) — the source compares
`YYYY-MM-DD` strings, whose lexicographic order coincides with the
chronological order of day numbers; DataFrames are lists of typed rows.
-/

namespace Stock

/-! ### `DataQualityValidator.validate_data_freshness`
(`data_quality_validator.py`, lines 92-98).  Only the score computation is
modelled; `days_since_update` is the integer day difference. -/

/-- Freshness score: `<=1` day → 100, `<=3` → 90, `<=7` → 80, otherwise
`max(0.0, 80.0 - (days_since_update - 7))`. -/
def freshness_score (days_since_update : Int) : ℚ :=
  if days_since_update ≤ 1 then 100
  else if days_since_update ≤ 3 then 90
  else if days_since_update ≤ 7 then 80
  else max 0 (80 - ((days_since_update : ℚ) - 7))

/-! ### `EnhancedBondDataCollector._clean_bond_history_data`, volume branch
(`enhanced_history_pipeline.py`, lines 141-147).  The volume column is a
list of nullable rationals; `pd.to_numeric` has already run.  The code
scales the whole column by 100 when the column has at least one non-null
value and the mean of the non-null values is below 1,000,000
(`NaN * 100 = NaN`, hence `Option.map`). -/

/-- The non-null values of the volume column (`df[col][df[col].notna()]`). -/
def volumeNonNull (volume : List (Option ℚ)) : List ℚ :=
  volume.filterMap id

/-- The volume-scaling step of `_clean_bond_history_data`. -/
def clean_volume (volume : List (Option ℚ)) : List (Option ℚ) :=
  let nn := volumeNonNull volume
  if nn.length ≠ 0 ∧ nn.sum / (nn.length : ℚ) < 1000000 then
    volume.map (Option.map (fun v => v * 100))
  else volume

/-! ### `robust_akshare_call` (`enhanced_history_pipeline.py`, lines 32-59).
One upstream attempt either returns a table (possibly empty), raises a
terminal error (a "不存在"/"not found" message or the `'date'` key error —
the branch at line 47), or raises any other exception (connection resets
and unclassified errors — retried alike).  The wrapper loops over
`range(max_retries)`; the model also returns the number of upstream calls
made, to express "no further retries".  Tables are abstracted as lists. -/

/-- Outcome of a single upstream call attempt. -/
inductive CallOutcome where
  | ok (df : List ℚ)
  | errTerminal (msg : String)
  | errOther (msg : String)
deriving DecidableEq

/-- Whether the attempt raised (either error class). -/
def CallOutcome.isFail : CallOutcome → Bool
  | .ok _ => false
  | .errTerminal _ => true
  | .errOther _ => true

/-- The retry loop of `robust_akshare_call`: `attempt` is the current
index, the second argument the remaining iterations of
`range(max_retries)`.  Returns the resulting table and the total number of
upstream calls made. -/
def robustLoop (outcomes : Nat → CallOutcome) (attempt : Nat) :
    Nat → List ℚ × Nat
  | 0 => ([], attempt)
  | remaining + 1 =>
    match outcomes attempt with
    | .ok df => (df, attempt + 1)
    | .errTerminal _ => ([], attempt + 1)
    | .errOther _ =>
      if remaining = 0 then ([], attempt + 1)
      else robustLoop outcomes (attempt + 1) remaining

/-- `robust_akshare_call(func, max_retries)` where `outcomes a` is what the
wrapped call does on its `a`-th invocation. -/
def robust_akshare_call (outcomes : Nat → CallOutcome) (max_retries : Nat) :
    List ℚ × Nat :=
  robustLoop outcomes 0 max_retries

/-- Concrete attempt sequence used to witness the retry behaviour: one
transient failure, then a terminal "not found" failure. -/
def exOutcomes : Nat → CallOutcome :=
  fun a => if a = 0 then .errOther "connection aborted" else .errTerminal "not found"

/-! ### `MasterDataCollector.get_missing_dates` and the gap set of
`_archive_latest_to_history_and_backfill` (`master_data_collector.py`,
lines 132-151 and 161-172).  Trading dates are day numbers; the source's
`start_date = latest_date_in_db + 1 day` and the string comparisons
`>= start_date` / `<= today_str` on `YYYY-MM-DD` strings become
`latest + 1 ≤ d` and `d ≤ today` on day numbers. -/

/-- `get_missing_dates`: `None` when the history table is empty, `[]` when
the calendar is unavailable, else the calendar dates in
`[start_date, today]`. -/
def get_missing_dates (latest_date_in_db : Option Nat) (trade_calendar : List Nat)
    (today : Nat) : List Nat :=
  match latest_date_in_db with
  | none => []
  | some latest =>
    if trade_calendar.isEmpty then []
    else trade_calendar.filter (fun d => decide (latest + 1 ≤ d) && decide (d ≤ today))

/-- `trade_calendar[trade_calendar['trade_date'] <= today_str]['trade_date'].max()`
(line 162): the latest trading day not after today. -/
def latest_trade_date (trade_calendar : List Nat) (today : Nat) : Option Nat :=
  (trade_calendar.filter (fun d => decide (d ≤ today))).max?

/-- The gap set the archiver backfills (lines 162-172): `missing_dates`
with the latest trading day removed (`missing_dates.remove`, which drops
the first occurrence); `none` when no latest trading day exists (the
method aborts there). -/
def archive_gap_dates (latest_date_in_db : Option Nat) (trade_calendar : List Nat)
    (today : Nat) : Option (List Nat) :=
  match latest_trade_date trade_calendar today with
  | none => none
  | some latest =>
    let missing := get_missing_dates latest_date_in_db trade_calendar today
    some (if latest ∈ missing then missing.erase latest else missing)

/-! ### `DataSourceManager` (`data_source_manager.py`).  The registry is
the insertion-ordered dict of source id → config built by
`_initialize_sources`; `datetime.now()` timestamps are abstract instants
(`Nat`); a provider call in the fallback loop either returns a bond list
(abstracted to a list of codes) or raises. -/

/-- `DataSourceStatus` (lines 29-34). -/
inductive DataSourceStatus where
  | active
  | inactive
  | error
  | maintenance
deriving DecidableEq

/-- `DataSourceConfig` (lines 37-48). -/
structure DataSourceConfig where
  name : String
  priority : Nat
  status : DataSourceStatus
  request_delay : ℚ
  max_retries : Nat
  timeout : Nat
  last_success : Option Nat
  last_error : Option String
  error_count : Nat
deriving DecidableEq

/-- The manager's `self.sources` dict, as an ordered association list. -/
structure DataSourceManager where
  sources : List (String × DataSourceConfig)
deriving DecidableEq

/-- `_initialize_sources` (lines 62-97). -/
def initial_sources : DataSourceManager :=
  ⟨[("jsl", ⟨"集思录", 1, .active, 3/10, 3, 10, none, none, 0⟩),
    ("eastmoney", ⟨"东方财富", 2, .active, 1/2, 3, 15, none, none, 0⟩),
    ("sina", ⟨"新浪财经", 3, .active, 1/5, 3, 10, none, none, 0⟩),
    ("tencent", ⟨"腾讯财经", 4, .active, 2/5, 3, 10, none, none, 0⟩)]⟩

/-- First-match lookup in an ordered association list (the dict's keys are
unique, so this is `self.sources[source_id]`). -/
def lookupPairs : List (String × DataSourceConfig) → String → Option DataSourceConfig
  | [], _ => none
  | p :: rest, sid => if p.1 = sid then some p.2 else lookupPairs rest sid

/-- `self.sources[source_id]` lookup. -/
def lookupSource (m : DataSourceManager) (sid : String) : Option DataSourceConfig :=
  lookupPairs m.sources sid

/-- The field updates of `update_source_status` (lines 110-119). -/
def updateConfig (c : DataSourceConfig) (status : DataSourceStatus)
    (error_msg : Option String) (now : Nat) : DataSourceConfig :=
  if status = .active then
    { c with status := status, last_success := some now, error_count := 0,
             last_error := none }
  else
    { c with status := status, error_count := c.error_count + 1,
             last_error := error_msg }

/-- `update_source_status` (lines 107-121): a no-op when `source_id` is
not registered. -/
def update_source_status (m : DataSourceManager) (source_id : String)
    (status : DataSourceStatus) (error_msg : Option String) (now : Nat) :
    DataSourceManager :=
  ⟨m.sources.map (fun p =>
    if p.1 = source_id then (p.1, updateConfig p.2 status error_msg now) else p)⟩

/-- Ascending priority on registry entries. -/
def prioLe (a b : String × DataSourceConfig) : Prop :=
  a.2.priority ≤ b.2.priority

instance : DecidableRel prioLe :=
  fun a b => Nat.decLe a.2.priority b.2.priority

instance : IsTotal (String × DataSourceConfig) prioLe :=
  ⟨fun a b => Nat.le_total a.2.priority b.2.priority⟩

instance : IsTrans (String × DataSourceConfig) prioLe :=
  ⟨fun _ _ _ hab hbc => Nat.le_trans hab hbc⟩

/-- `get_source_by_priority` (lines 99-105): the active sources, sorted by
ascending priority (`sorted` is stable, as is insertion sort). -/
def get_source_by_priority (m : DataSourceManager) :
    List (String × DataSourceConfig) :=
  List.insertionSort prioLe
    (m.sources.filter (fun p => decide (p.2.status = .active)))

/-- The `except` branch of `get_bond_list_with_fallback` (lines 142-148):
record the error, then — reading the mutated config back — deactivate the
source when its error count has reached its retry budget. -/
def recordFailure (m : DataSourceManager) (sid msg : String) (now : Nat) :
    DataSourceManager :=
  let m1 := update_source_status m sid .error (some msg) now
  match lookupSource m1 sid with
  | some c =>
    if c.max_retries ≤ c.error_count then
      update_source_status m1 sid .inactive (some "错误次数过多") now
    else m1
  | none => m1

/-- What one provider call inside the fallback loop does: return a bond
list (possibly empty) or raise. -/
inductive FetchOutcome where
  | ok (bonds : List String)
  | exn (msg : String)

/-- The `for` loop of `get_bond_list_with_fallback` (lines 125-150) over
the priority listing.  Returns the final registry state, the bond list
returned to the caller, and the ids of the sources actually queried.
Sources other than `'jsl'` and `'eastmoney'` hit `else: continue`
(line 133). -/
def fallbackLoop (fetch : String → FetchOutcome) (now : Nat) :
    DataSourceManager → List (String × DataSourceConfig) →
      DataSourceManager × List String × List String
  | m, [] => (m, [], [])
  | m, (sid, _) :: rest =>
    if sid = "jsl" ∨ sid = "eastmoney" then
      match fetch sid with
      | .ok result =>
        if result.isEmpty then
          let r := fallbackLoop fetch now
            (update_source_status m sid .error (some "返回空数据") now) rest
          (r.1, r.2.1, sid :: r.2.2)
        else
          (update_source_status m sid .active none now, result, [sid])
      | .exn msg =>
        let r := fallbackLoop fetch now (recordFailure m sid msg now) rest
        (r.1, r.2.1, sid :: r.2.2)
    else
      fallbackLoop fetch now m rest

/-- `get_bond_list_with_fallback` (lines 123-153). -/
def get_bond_list_with_fallback (m : DataSourceManager)
    (fetch : String → FetchOutcome) (now : Nat) :
    DataSourceManager × List String × List String :=
  fallbackLoop fetch now m (get_source_by_priority m)

/-- A registry with one source two failures away from its retry budget,
used to witness deactivation. -/
def exManager : DataSourceManager :=
  ⟨[("jsl", ⟨"集思录", 1, .active, 3/10, 3, 10, none, some "boom", 2⟩)]⟩

/-- A provider environment in which every call raises. -/
def exFetch : String → FetchOutcome :=
  fun _ => .exn "connection aborted"

/-! ### `EnhancedBondDataCollector.save_to_database`
(`enhanced_history_pipeline.py`, lines 226-247).  The target table is a
list of rows keyed by `(trade_date, bond_code)`; `price` stands in for the
other value columns (the column-intersection step at lines 233-236 only
drops columns absent from the schema).  The multi-row
`INSERT ... ON CONFLICT (trade_date, bond_code) DO NOTHING` (lines
241-243) processes records in order, each checked against the table as
already extended by the earlier records of the same statement, and
`result.rowcount` counts the rows actually inserted. -/

/-- A row of `cb_daily_history`, reduced to its natural key plus a
representative value column. -/
structure SavedRow where
  trade_date : Nat
  bond_code : Nat
  price : Option ℚ
deriving DecidableEq

/-- The `(trade_date, bond_code)` key test. -/
def keyPred (t b : Nat) (x : SavedRow) : Bool :=
  decide (x.trade_date = t) && decide (x.bond_code = b)

/-- Whether the table already holds a row with the given natural key. -/
def hasKey (tbl : List SavedRow) (t b : Nat) : Bool :=
  tbl.any (keyPred t b)

/-- Inserting one record under `ON CONFLICT DO NOTHING`. -/
def insertStep (acc : List SavedRow × Nat) (r : SavedRow) : List SavedRow × Nat :=
  if hasKey acc.1 r.trade_date r.bond_code then acc
  else (acc.1 ++ [r], acc.2 + 1)

/-- `save_to_database(df, table_name)`: the updated table and the returned
insert count; an empty frame returns 0 without touching the store. -/
def save_to_database (tbl : List SavedRow) (df : List SavedRow) :
    List SavedRow × Nat :=
  df.foldl insertStep (tbl, 0)

/-- The first (hence, under key uniqueness, the only) row with the given
key — what a point query against the table returns. -/
def findKey (tbl : List SavedRow) (t b : Nat) : Option SavedRow :=
  tbl.find? (keyPred t b)

/-- Number of rows carrying the given key. -/
def countKey (tbl : List SavedRow) (t b : Nat) : Nat :=
  (tbl.filter (keyPred t b)).length

/-- Concrete store and frame for the idempotence witness. -/
def exTbl : List SavedRow :=
  [⟨1, 100, some 5⟩]

/-- Frame whose first row collides with `exTbl` on the natural key. -/
def exDf : List SavedRow :=
  [⟨1, 100, some 9⟩, ⟨2, 100, some 7⟩]

/-! ### `EnhancedBondDataCollector._merge_bond_data` and
`_calculate_derived_metrics` (`enhanced_history_pipeline.py`, lines
201-224).  Only the columns this logic reads or writes are modelled:
`trade_date`, the history `price`, the valuation `price_val` and
`premium_rate`.  The bond-identity broadcast (line 212) and the optional
stock-history join (lines 213-214) only add further columns and touch none
of these.  `pd.merge(..., how='left')` emits one output row per matching
right-hand row, or a single null-extended row when nothing matches;
`Series.fillna` keeps the left value wherever it is non-null.
`Series.pct_change()` pad-fills nulls before differencing and always
leaves the first cell null. -/

/-- A cleaned history row (`_clean_bond_history_data` output). -/
structure HistRow where
  trade_date : Nat
  price : Option ℚ
deriving DecidableEq

/-- A cleaned valuation row (`_clean_value_analysis_data` output). -/
structure ValRow where
  trade_date : Nat
  price_val : Option ℚ
  premium_rate : Option ℚ
deriving DecidableEq

/-- A merged row after `fillna`/`drop(columns=['price_val'])`. -/
structure MRow where
  trade_date : Nat
  price : Option ℚ
  premium_rate : Option ℚ
deriving DecidableEq

/-- A merged row as produced by the left join, before `fillna`. -/
structure JRow where
  trade_date : Nat
  price : Option ℚ
  price_val : Option ℚ
  premium_rate : Option ℚ
deriving DecidableEq

/-- A row with the derived metric columns of `_calculate_derived_metrics`. -/
structure DRow where
  trade_date : Nat
  price : Option ℚ
  premium_rate : Option ℚ
  price_chg_pct : Option ℚ
  double_low : Option ℚ
deriving DecidableEq

/-- The valuation rows sharing a trade date (the join partners). -/
def valMatches (value_df : List ValRow) (d : Nat) : List ValRow :=
  value_df.filter (fun v => decide (v.trade_date = d))

/-- `pd.merge(hist_df, value_df, on='trade_date', how='left', suffixes=('', '_val'))`
(line 206). -/
def leftJoinVal (hist_df : List HistRow) (value_df : List ValRow) : List JRow :=
  hist_df.flatMap (fun h =>
    match valMatches value_df h.trade_date with
    | [] => [⟨h.trade_date, h.price, none, none⟩]
    | ms => ms.map (fun v => ⟨h.trade_date, h.price, v.price_val, v.premium_rate⟩))

/-- `merged['price'] = merged['price'].fillna(merged['price_val'])` and the
drop of `price_val` (lines 208-209). -/
def fillPrice (j : JRow) : MRow :=
  ⟨j.trade_date,
   match j.price with
   | some p => some p
   | none => j.price_val,
   j.premium_rate⟩

/-- Lines 206-209: join then fill. -/
def mergeFill (hist_df : List HistRow) (value_df : List ValRow) : List MRow :=
  (leftJoinVal hist_df value_df).map fillPrice

/-- Ascending trade-date order. -/
def dateLe (a b : MRow) : Prop :=
  a.trade_date ≤ b.trade_date

instance : DecidableRel dateLe :=
  fun a b => Nat.decLe a.trade_date b.trade_date

instance : IsTotal MRow dateLe :=
  ⟨fun a b => Nat.le_total a.trade_date b.trade_date⟩

instance : IsTrans MRow dateLe :=
  ⟨fun _ _ _ h1 h2 => Nat.le_trans h1 h2⟩

/-- `df.sort_values(by='trade_date').reset_index(drop=True)` (line 219). -/
def sortByDate (rows : List MRow) : List MRow :=
  List.insertionSort dateLe rows

/-- One `pct_change * 100` cell from the pad-filled current and previous
values. -/
def pctCell (cur prev : Option ℚ) : Option ℚ :=
  match cur, prev with
  | some a, some b => some ((a / b - 1) * 100)
  | _, _ => none

/-- Forward-fill step: a null cell keeps the last value seen. -/
def padNext (prev x : Option ℚ) : Option ℚ :=
  match x with
  | some v => some v
  | none => prev

/-- `df['price'].pct_change() * 100` (line 221): `prev` is the pad-filled
previous value, initially null, so the first cell is always null. -/
def pctList : Option ℚ → List (Option ℚ) → List (Option ℚ)
  | _, [] => []
  | prev, x :: xs => pctCell (padNext prev x) prev :: pctList (padNext prev x) xs

/-- `df['double_low'] = df['price'] + df['premium_rate']` (line 223):
pandas addition propagates null. -/
def doubleLow (p q : Option ℚ) : Option ℚ :=
  match p, q with
  | some a, some b => some (a + b)
  | _, _ => none

/-- Column assignment: pair each sorted row with its `pct_change` cell and
its `double_low` value. -/
def attachChg : List MRow → List (Option ℚ) → List DRow
  | r :: rs, c :: cs =>
    ⟨r.trade_date, r.price, r.premium_rate, c, doubleLow r.price r.premium_rate⟩
      :: attachChg rs cs
  | _, _ => []

/-- `_calculate_derived_metrics` (lines 217-224). -/
def calculate_derived_metrics (rows : List MRow) : List DRow :=
  attachChg (sortByDate rows)
    (pctList none ((sortByDate rows).map (fun r => r.price)))

/-- `_merge_bond_data` (lines 201-215) on the modelled columns. -/
def merge_bond_data (hist_df : List HistRow) (value_df : List ValRow) : List DRow :=
  if hist_df.isEmpty && value_df.isEmpty then []
  else
    calculate_derived_metrics
      (if !hist_df.isEmpty then
        (if !value_df.isEmpty then mergeFill hist_df value_df
         else hist_df.map (fun h => ⟨h.trade_date, h.price, none⟩))
       else value_df.map (fun v => ⟨v.trade_date, v.price_val, v.premium_rate⟩))

/-- The claim's primary table: price `[10, null, 12]` on dates 1, 2, 3. -/
def exHist : List HistRow :=
  [⟨1, some 10⟩, ⟨2, none⟩, ⟨3, some 12⟩]

/-- The claim's valuation table: price `[9, 11, 13]` on matching dates. -/
def exVal : List ValRow :=
  [⟨1, some 9, none⟩, ⟨2, some 11, none⟩, ⟨3, some 13, none⟩]

/-- The claim's price sequence `[100, 110, 99]` on dates 1, 2, 3. -/
def exMRows : List MRow :=
  [⟨1, some 100, none⟩, ⟨2, some 110, none⟩, ⟨3, some 99, none⟩]

/-! ### Static-field backfill of `_archive_latest_to_history_and_backfill`
(`master_data_collector.py`, lines 213-225).  For each field of the fixed
`backfill_fields` list (outer loop) and each snapshot row with a non-null
value in that field (inner loop, `pd.notna` guard), the code executes
`UPDATE cb_daily_history SET field = :value WHERE bond_code = :bond_code
AND field IS NULL`.  TEXT and REAL cells are collapsed into one value
type; each UPDATE acts row-wise on the table. -/

/-- A cell value (TEXT or REAL) of a backfillable column. -/
inductive FieldVal where
  | s (v : String)
  | q (v : ℚ)
deriving DecidableEq

/-- The six slowly-changing columns of `backfill_fields` (line 214). -/
inductive BackfillField where
  | bond_rating
  | put_trigger_price
  | force_redeem_trigger_price
  | conv_price
  | maturity_date
  | stock_pb
deriving DecidableEq

/-- The `backfill_fields` list, in source order. -/
def backfill_fields : List BackfillField :=
  [.bond_rating, .put_trigger_price, .force_redeem_trigger_price,
   .conv_price, .maturity_date, .stock_pb]

/-- A `cb_daily_history` row, restricted to its key and the six
backfillable columns. -/
structure HistoricalRow where
  trade_date : Nat
  bond_code : String
  bond_rating : Option FieldVal
  put_trigger_price : Option FieldVal
  force_redeem_trigger_price : Option FieldVal
  conv_price : Option FieldVal
  maturity_date : Option FieldVal
  stock_pb : Option FieldVal
deriving DecidableEq

/-- A `convertible_bond_data` (latest snapshot) row, restricted to
`bond_code` and the backfillable columns (`backfill_data`, line 215). -/
structure SnapshotRow where
  bond_code : String
  bond_rating : Option FieldVal
  put_trigger_price : Option FieldVal
  force_redeem_trigger_price : Option FieldVal
  conv_price : Option FieldVal
  maturity_date : Option FieldVal
  stock_pb : Option FieldVal
deriving DecidableEq

/-- Read a backfillable column of a historical row. -/
def getHist (r : HistoricalRow) : BackfillField → Option FieldVal
  | .bond_rating => r.bond_rating
  | .put_trigger_price => r.put_trigger_price
  | .force_redeem_trigger_price => r.force_redeem_trigger_price
  | .conv_price => r.conv_price
  | .maturity_date => r.maturity_date
  | .stock_pb => r.stock_pb

/-- Write a backfillable column of a historical row. -/
def setHist (r : HistoricalRow) : BackfillField → FieldVal → HistoricalRow
  | .bond_rating, v => { r with bond_rating := some v }
  | .put_trigger_price, v => { r with put_trigger_price := some v }
  | .force_redeem_trigger_price, v => { r with force_redeem_trigger_price := some v }
  | .conv_price, v => { r with conv_price := some v }
  | .maturity_date, v => { r with maturity_date := some v }
  | .stock_pb, v => { r with stock_pb := some v }

/-- Read a backfillable column of a snapshot row (`row[field]`). -/
def getSnap (s : SnapshotRow) : BackfillField → Option FieldVal
  | .bond_rating => s.bond_rating
  | .put_trigger_price => s.put_trigger_price
  | .force_redeem_trigger_price => s.force_redeem_trigger_price
  | .conv_price => s.conv_price
  | .maturity_date => s.maturity_date
  | .stock_pb => s.stock_pb

/-- The SQL `UPDATE ... SET field = :value WHERE bond_code = :bond_code
AND field IS NULL` (line 223), on one row. -/
def updateRowWhereNull (f : BackfillField) (code : String) (v : FieldVal)
    (r : HistoricalRow) : HistoricalRow :=
  if r.bond_code = code ∧ getHist r f = none then setHist r f v else r

/-- The same UPDATE over the whole table. -/
def updateTableWhereNull (f : BackfillField) (code : String) (v : FieldVal)
    (tbl : List HistoricalRow) : List HistoricalRow :=
  tbl.map (updateRowWhereNull f code v)

/-- One snapshot row's contribution to one row for one field: skipped when
the snapshot value is null (`if pd.notna(value_to_fill)`, line 222). -/
def backfillRowStep (f : BackfillField) (s : SnapshotRow)
    (r : HistoricalRow) : HistoricalRow :=
  match getSnap s f with
  | some v => updateRowWhereNull f s.bond_code v r
  | none => r

/-- The inner loop over `backfill_data.iterrows()` (lines 220-224) for one
field. -/
def backfillFieldPass (snap : List SnapshotRow) (tbl : List HistoricalRow)
    (f : BackfillField) : List HistoricalRow :=
  snap.foldl (fun t s =>
    match getSnap s f with
    | some v => updateTableWhereNull f s.bond_code v t
    | none => t) tbl

/-- The outer loop over `backfill_fields` (lines 217-224). -/
def static_backfill (tbl : List HistoricalRow) (snap : List SnapshotRow) :
    List HistoricalRow :=
  backfill_fields.foldl (backfillFieldPass snap) tbl

/-- What the whole double loop does to a single historical row. -/
def backfillRow (snap : List SnapshotRow) (r : HistoricalRow) : HistoricalRow :=
  backfill_fields.foldl
    (fun r2 f => snap.foldl (fun r3 s => backfillRowStep f s r3) r2) r

/-- The invariant the backfill maintains for one row: key fields are
untouched, and every column is either unchanged or was null and now holds
a non-null snapshot value for the same bond. -/
def rowInv (snap : List SnapshotRow) (r r2 : HistoricalRow) : Prop :=
  r2.bond_code = r.bond_code ∧ r2.trade_date = r.trade_date ∧
  ∀ f, getHist r2 f = getHist r f ∨
    (getHist r f = none ∧ ∃ s ∈ snap, s.bond_code = r.bond_code ∧
      ∃ v, getSnap s f = some v ∧ getHist r2 f = some v)

/-- The claim's historical table: one row already rated `'AA'`. -/
def exHistTbl : List HistoricalRow :=
  [⟨1, "127001", some (.s "AA"), none, none, none, none, none⟩]

/-- The claim's snapshot: the same bond now rated `'AAA'`. -/
def exSnap : List SnapshotRow :=
  [⟨"127001", some (.s "AAA"), none, none, none, none, none⟩]

/-! ## Theorems -/

/-! ### C7 — freshness decay -/

/-- C7 (counterexample): the claim states `days_since_update = 50` scores
30, but `validate_data_freshness` computes `max(0, 80 - (50 - 7)) = 37`. -/
theorem c7_freshness_counterexample :
    freshness_score 50 = 37 ∧ freshness_score 50 ≠ 30 := by
  constructor <;> norm_num [freshness_score]

/-- C7 (amended): for every non-negative `days_since_update`, the freshness
score is the step function `≤1 → 100`, `≤3 → 90`, `≤7 → 80`, beyond 7
linearly decaying by one point per day past 7 and floored at 0; in
particular days 0, 5, 10, 50, 200 yield 100, 80, 77, **37**, 0. -/
theorem c7_freshness_amended (d : Int) (hd : 0 ≤ d) :
    (d ≤ 1 → freshness_score d = 100) ∧
    (1 < d → d ≤ 3 → freshness_score d = 90) ∧
    (3 < d → d ≤ 7 → freshness_score d = 80) ∧
    (7 < d → freshness_score d = max 0 (80 - ((d : ℚ) - 7))) ∧
    freshness_score 0 = 100 ∧ freshness_score 5 = 80 ∧
    freshness_score 10 = 77 ∧ freshness_score 50 = 37 ∧
    freshness_score 200 = 0 := by
  refine ⟨?_, ?_, ?_, ?_, ?_, ?_, ?_, ?_, ?_⟩
  · intro h1
    simp [freshness_score, h1]
  · intro h1 h2
    have e1 : ¬ d ≤ 1 := by omega
    simp [freshness_score, e1, h2]
  · intro h1 h2
    have e1 : ¬ d ≤ 1 := by omega
    have e2 : ¬ d ≤ 3 := by omega
    simp [freshness_score, e1, e2, h2]
  · intro h1
    have e1 : ¬ d ≤ 1 := by omega
    have e2 : ¬ d ≤ 3 := by omega
    have e3 : ¬ d ≤ 7 := by omega
    simp [freshness_score, e1, e2, e3]
  · norm_num [freshness_score]
  · norm_num [freshness_score]
  · norm_num [freshness_score, max_def]
  · norm_num [freshness_score, max_def]
  · norm_num [freshness_score, max_def]

/-- C7 witness: the amended theorem applied at `days_since_update = 10`. -/
theorem c7_freshness_amended_witness : freshness_score 10 = 77 :=
  (c7_freshness_amended 10 (by norm_num)).2.2.2.2.2.2.1

/-! ### C9 — volume unit normalization -/

/-- C9: if the volume column has any non-null value and the mean of the
non-null values is below 1,000,000 then every value is multiplied by 100,
otherwise the column is unchanged; in particular mean 50,000 is scaled
and mean 5,000,000 is not. -/
theorem c9_volume_scaling (volume : List (Option ℚ))
    (hne : volumeNonNull volume ≠ []) :
    ((volumeNonNull volume).sum / ((volumeNonNull volume).length : ℚ) < 1000000 →
      clean_volume volume = volume.map (Option.map (fun v => v * 100))) ∧
    (¬ ((volumeNonNull volume).sum / ((volumeNonNull volume).length : ℚ) < 1000000) →
      clean_volume volume = volume) ∧
    clean_volume [some 50000] = [some 5000000] ∧
    clean_volume [some 5000000, none] = [some 5000000, none] := by
  have hlen : (volumeNonNull volume).length ≠ 0 := by
    simpa [List.length_eq_zero] using hne
  refine ⟨fun hmean => ?_, fun hmean => ?_,
    by norm_num [clean_volume, volumeNonNull, List.filterMap_cons],
    by norm_num [clean_volume, volumeNonNull, List.filterMap_cons]⟩
  · simp only [clean_volume]
    rw [if_pos ⟨hlen, hmean⟩]
  · simp only [clean_volume]
    rw [if_neg]
    intro hcon
    exact hmean hcon.2

/-- C9 witness: the theorem applied to the one-cell column `[50000]`. -/
theorem c9_volume_scaling_witness :
    clean_volume [some 50000] = [some 5000000] :=
  (c9_volume_scaling [some 50000] (by simp [volumeNonNull])).2.2.1

/-! ### C8 — the robust fetch wrapper -/

/-- If the first `k` attempts raise retriable errors and attempt `k` raises
a terminal (not-found / key) error, the loop stops right there with an
empty table after exactly `k + 1` calls. -/
theorem robustLoop_terminal_prefix (outcomes : Nat → CallOutcome) :
    ∀ (k att rem : Nat), k < rem →
      (∀ i, i < k → ∃ m, outcomes (att + i) = .errOther m) →
      ∀ msg, outcomes (att + k) = .errTerminal msg →
        robustLoop outcomes att rem = ([], att + k + 1) := by
  intro k
  induction k with
  | zero =>
    intro att rem hk hpre msg hterm
    obtain ⟨r, rfl⟩ := Nat.exists_eq_succ_of_ne_zero (Nat.pos_iff_ne_zero.mp hk)
    simp only [Nat.add_zero] at hterm
    simp [robustLoop, hterm]
  | succ k ih =>
    intro att rem hk hpre msg hterm
    have hrem : rem ≠ 0 := by omega
    obtain ⟨r, rfl⟩ := Nat.exists_eq_succ_of_ne_zero hrem
    obtain ⟨m0, hm0⟩ := hpre 0 (Nat.succ_pos k)
    simp only [Nat.add_zero] at hm0
    have hr : r ≠ 0 := by omega
    have hstep : robustLoop outcomes att (r + 1) = robustLoop outcomes (att + 1) r := by
      simp [robustLoop, hm0, hr]
    rw [hstep]
    have hpre2 : ∀ i, i < k → ∃ m, outcomes (att + 1 + i) = .errOther m := by
      intro i hi
      have := hpre (i + 1) (by omega)
      have harith : att + (i + 1) = att + 1 + i := by omega
      rwa [harith] at this
    have hterm2 : outcomes (att + 1 + k) = .errTerminal msg := by
      have harith : att + (k + 1) = att + 1 + k := by omega
      rwa [harith] at hterm
    have := ih (att + 1) r (by omega) hpre2 msg hterm2
    rw [this]
    congr 1
    omega

/-- If every attempt in range raises, the loop yields an empty table. -/
theorem robustLoop_all_fail (outcomes : Nat → CallOutcome) :
    ∀ (rem att : Nat), (∀ a, a < rem → (outcomes (att + a)).isFail = true) →
      (robustLoop outcomes att rem).1 = [] := by
  intro rem
  induction rem with
  | zero => intro att _; rfl
  | succ r ih =>
    intro att hall
    cases h : outcomes att with
    | ok df =>
      have := hall 0 (Nat.succ_pos r)
      rw [Nat.add_zero, h] at this
      simp [CallOutcome.isFail] at this
    | errTerminal m => simp [robustLoop, h]
    | errOther m =>
      by_cases hr : r = 0
      · simp [robustLoop, h, hr]
      · have hstep : robustLoop outcomes att (r + 1) = robustLoop outcomes (att + 1) r := by
          simp [robustLoop, h, hr]
        rw [hstep]
        refine ih (att + 1) ?_
        intro a ha
        have := hall (a + 1) (by omega)
        have harith : att + (a + 1) = att + 1 + a := by omega
        rwa [harith] at this

/-- The loop always returns a table: either one produced by a successful
attempt, or the empty table. -/
theorem robustLoop_result (outcomes : Nat → CallOutcome) :
    ∀ (rem att : Nat), (robustLoop outcomes att rem).1 = [] ∨
      ∃ a, att ≤ a ∧ a < att + rem ∧
        outcomes a = .ok (robustLoop outcomes att rem).1 := by
  intro rem
  induction rem with
  | zero => intro att; exact Or.inl rfl
  | succ r ih =>
    intro att
    cases h : outcomes att with
    | ok df =>
      refine Or.inr ⟨att, le_rfl, by omega, ?_⟩
      simp [robustLoop, h]
    | errTerminal m => exact Or.inl (by simp [robustLoop, h])
    | errOther m =>
      by_cases hr : r = 0
      · exact Or.inl (by simp [robustLoop, h, hr])
      · have hstep : robustLoop outcomes att (r + 1) = robustLoop outcomes (att + 1) r := by
          simp [robustLoop, h, hr]
        rw [hstep]
        rcases ih (att + 1) with he | ⟨a, ha1, ha2, ha3⟩
        · exact Or.inl he
        · exact Or.inr ⟨a, by omega, by omega, ha3⟩

/-- C8: `robust_akshare_call` never raises.  A terminal (not-found or
schema-key) failure, possibly after retriable failures, returns an empty
table immediately — `k + 1` calls, so no further retry attempts; a run in
which every attempt fails returns an empty table; and in general the value
returned is a table: either one produced by a successful attempt or the
empty one. -/
theorem c8_robust_call_no_raise (outcomes : Nat → CallOutcome) (n : Nat) :
    (∀ k msg, k < n → (∀ i, i < k → ∃ m, outcomes i = .errOther m) →
      outcomes k = .errTerminal msg →
      robust_akshare_call outcomes n = ([], k + 1)) ∧
    ((∀ a, a < n → (outcomes a).isFail = true) →
      (robust_akshare_call outcomes n).1 = []) ∧
    ((robust_akshare_call outcomes n).1 = [] ∨
      ∃ a, a < n ∧ outcomes a = .ok (robust_akshare_call outcomes n).1) := by
  refine ⟨?_, ?_, ?_⟩
  · intro k msg hk hpre hterm
    have h := robustLoop_terminal_prefix outcomes k 0 n hk
      (by simpa using hpre) msg (by simpa using hterm)
    simpa [robust_akshare_call] using h
  · intro hall
    have h := robustLoop_all_fail outcomes n 0 (by simpa using hall)
    simpa [robust_akshare_call] using h
  · have h := robustLoop_result outcomes n 0
    rcases h with he | ⟨a, _, ha2, ha3⟩
    · exact Or.inl (by simpa [robust_akshare_call] using he)
    · exact Or.inr ⟨a, by omega, by simpa [robust_akshare_call] using ha3⟩

/-- C8 witness: with a transient failure followed by a "not found" failure
and `max_retries = 3`, the wrapper returns the empty table after exactly
two calls. -/
theorem c8_robust_call_no_raise_witness :
    robust_akshare_call exOutcomes 3 = ([], 2) :=
  (c8_robust_call_no_raise exOutcomes 3).1 1 "not found" (by omega)
    (by
      intro i hi
      have hi0 : i = 0 := by omega
      subst hi0
      exact ⟨"connection aborted", rfl⟩)
    rfl

/-! ### C5 — backfill gap computation -/

/-- C5: for a stored last date and a duplicate-free cached calendar, the
gap set processed by the archiver is exactly the calendar dates strictly
greater than the last stored date and at most today, minus the latest
trading day ≤ today; in particular with last-stored day 10 and calendar
`[11, 12, 13]`, `today = 13`, the gap set is `[11, 12]`. -/
theorem c5_backfill_gap (last today latest : Nat) (calendar gaps : List Nat)
    (hnodup : calendar.Nodup)
    (hlatest : latest_trade_date calendar today = some latest)
    (hgaps : archive_gap_dates (some last) calendar today = some gaps) :
    (∀ d, d ∈ gaps ↔ (d ∈ calendar ∧ last < d ∧ d ≤ today ∧ d ≠ latest)) ∧
    archive_gap_dates (some 10) [11, 12, 13] 13 = some [11, 12] := by
  have hmiss : get_missing_dates (some last) calendar today
      = calendar.filter (fun d => decide (last + 1 ≤ d) && decide (d ≤ today)) := by
    by_cases hc : calendar.isEmpty
    · rw [List.isEmpty_iff] at hc
      subst hc
      simp [get_missing_dates]
    · simp [get_missing_dates, hc]
  have hmem : ∀ d, d ∈ get_missing_dates (some last) calendar today ↔
      (d ∈ calendar ∧ last < d ∧ d ≤ today) := by
    intro d
    rw [hmiss, List.mem_filter]
    simp [Nat.lt_iff_add_one_le]
  have hmissnodup : (get_missing_dates (some last) calendar today).Nodup := by
    rw [hmiss]
    exact List.Nodup.filter _ hnodup
  simp only [archive_gap_dates, hlatest, Option.some.injEq] at hgaps
  constructor
  · intro d
    by_cases hin : latest ∈ get_missing_dates (some last) calendar today
    · rw [if_pos hin] at hgaps
      rw [← hgaps, List.Nodup.mem_erase_iff hmissnodup, hmem d]
      constructor
      · rintro ⟨hne, hcal, hlt, hle⟩
        exact ⟨hcal, hlt, hle, hne⟩
      · rintro ⟨hcal, hlt, hle, hne⟩
        exact ⟨hne, hcal, hlt, hle⟩
    · rw [if_neg hin] at hgaps
      rw [← hgaps, hmem d]
      constructor
      · rintro ⟨hcal, hlt, hle⟩
        refine ⟨hcal, hlt, hle, ?_⟩
        rintro rfl
        exact hin ((hmem d).mpr ⟨hcal, hlt, hle⟩)
      · rintro ⟨hcal, hlt, hle, _⟩
        exact ⟨hcal, hlt, hle⟩
  · decide

/-- C5 witness: the theorem applied to the concrete instance of the claim,
read off at gap date 11. -/
theorem c5_backfill_gap_witness :
    11 ∈ ([11, 12] : List Nat) ↔
      (11 ∈ ([11, 12, 13] : List Nat) ∧ 10 < 11 ∧ 11 ≤ 13 ∧ 11 ≠ 13) :=
  (c5_backfill_gap 10 13 13 [11, 12, 13] [11, 12]
    (by decide) (by decide) (by decide)).1 11

/-! ### C4 / C10 — source registry -/

/-- Lookup after the id-preserving per-entry update of
`update_source_status`. -/
theorem lookupPairs_update (sid sid2 : String)
    (g : DataSourceConfig → DataSourceConfig) :
    ∀ l : List (String × DataSourceConfig),
      lookupPairs (l.map (fun p => if p.1 = sid then (p.1, g p.2) else p)) sid2
        = if sid2 = sid then (lookupPairs l sid2).map g
          else lookupPairs l sid2 := by
  intro l
  induction l with
  | nil =>
    by_cases h : sid2 = sid
    · rw [if_pos h]; rfl
    · rw [if_neg h]; rfl
  | cons p rest ih =>
    obtain ⟨a, c⟩ := p
    by_cases h4 : sid2 = sid
    · subst h4
      by_cases h1 : a = sid2
      · subst h1
        simp [lookupPairs, ih]
      · simp [lookupPairs, h1, ih]
    · by_cases h1 : a = sid
      · subst h1
        have hne : ¬ a = sid2 := fun hh => h4 hh.symm
        simp [lookupPairs, hne, h4, ih]
      · by_cases h2 : a = sid2
        · subst h2
          simp [lookupPairs, h1, h4]
        · simp [lookupPairs, h1, h2, h4, ih]

/-- Looking up the updated source yields the updated config. -/
theorem lookupSource_update_self (m : DataSourceManager) (sid : String)
    (st : DataSourceStatus) (e : Option String) (now : Nat) :
    lookupSource (update_source_status m sid st e now) sid
      = (lookupSource m sid).map (fun c => updateConfig c st e now) := by
  simp only [lookupSource, update_source_status]
  have hu := lookupPairs_update sid sid (fun c => updateConfig c st e now) m.sources
  rw [if_pos rfl] at hu
  simpa using hu

/-- Updating one source leaves every other source's config unchanged. -/
theorem lookupSource_update_other (m : DataSourceManager) (sid sid2 : String)
    (st : DataSourceStatus) (e : Option String) (now : Nat) (h : sid2 ≠ sid) :
    lookupSource (update_source_status m sid st e now) sid2
      = lookupSource m sid2 := by
  simp only [lookupSource, update_source_status]
  have hu := lookupPairs_update sid sid2 (fun c => updateConfig c st e now) m.sources
  rw [if_neg h] at hu
  simpa using hu

/-- Recording a failure for one source leaves every other source's config
unchanged. -/
theorem lookupSource_recordFailure_other (m : DataSourceManager)
    (sid sid2 msg : String) (now : Nat) (h : sid2 ≠ sid) :
    lookupSource (recordFailure m sid msg now) sid2 = lookupSource m sid2 := by
  unfold recordFailure
  cases hf : lookupSource (update_source_status m sid .error (some msg) now) sid with
  | none =>
    simp only [hf]
    exact lookupSource_update_other m sid sid2 _ _ now h
  | some c =>
    simp only [hf]
    by_cases hr : c.max_retries ≤ c.error_count
    · rw [if_pos hr, lookupSource_update_other _ sid sid2 _ _ now h,
        lookupSource_update_other m sid sid2 _ _ now h]
    · rw [if_neg hr]
      exact lookupSource_update_other m sid sid2 _ _ now h

/-- C4: when recording a fetch failure raises a source's consecutive-error
counter to at least its configured retry budget, the fallback loop's
failure handler leaves the source with status `inactive`; and the
priority-ordered listing of `get_source_by_priority` only ever contains
sources whose status is `active`. -/
theorem c4_source_deactivation (m : DataSourceManager) (sid msg : String)
    (now : Nat) (c : DataSourceConfig) (hc : lookupSource m sid = some c)
    (hth : c.max_retries ≤ c.error_count + 1) :
    (lookupSource (recordFailure m sid msg now) sid).map (fun k => k.status)
      = some .inactive ∧
    (∀ m2 : DataSourceManager, ∀ p ∈ get_source_by_priority m2,
      p.2.status = .active) := by
  constructor
  · have h1 : lookupSource (update_source_status m sid .error (some msg) now) sid
        = some (updateConfig c .error (some msg) now) := by
      rw [lookupSource_update_self, hc, Option.map_some']
    have hcount : (updateConfig c .error (some msg) now).error_count
        = c.error_count + 1 := by
      simp [updateConfig]
    have hmax : (updateConfig c .error (some msg) now).max_retries
        = c.max_retries := by
      simp [updateConfig]
    unfold recordFailure
    simp only [h1]
    rw [if_pos (by rw [hcount, hmax]; exact hth)]
    rw [lookupSource_update_self, h1, Option.map_some', Option.map_some']
    simp [updateConfig]
  · intro m2 p hp
    have hmem : p ∈ m2.sources.filter (fun q => decide (q.2.status = .active)) :=
      ((List.perm_insertionSort prioLe _).mem_iff).mp hp
    have := List.of_mem_filter hmem
    simpa using this

/-- C4 witness: a source with `error_count = 2` and `max_retries = 3` is
deactivated by the failure handler. -/
theorem c4_source_deactivation_witness :
    (lookupSource (recordFailure exManager "jsl" "timeout" 7) "jsl").map
        (fun k => k.status) = some .inactive :=
  (c4_source_deactivation exManager "jsl" "timeout" 7
    ⟨"集思录", 1, .active, 3/10, 3, 10, none, some "boom", 2⟩
    rfl (by norm_num)).1

/-- Every registry update performed by the fallback loop targets the
source currently being tried, so all other configs are untouched. -/
theorem fallbackLoop_frame (fetch : String → FetchOutcome) (now : Nat)
    (sid2 : String) (h1 : sid2 ≠ "jsl") (h2 : sid2 ≠ "eastmoney") :
    ∀ (srcs : List (String × DataSourceConfig)) (m : DataSourceManager),
      lookupSource (fallbackLoop fetch now m srcs).1 sid2 = lookupSource m sid2 := by
  intro srcs
  induction srcs with
  | nil => intro m; rfl
  | cons p rest ih =>
    intro m
    obtain ⟨sid, cfg⟩ := p
    by_cases hs : sid = "jsl" ∨ sid = "eastmoney"
    · have hne : sid2 ≠ sid := by
        rcases hs with rfl | rfl
        · exact h1
        · exact h2
      cases hf : fetch sid with
      | ok result =>
        by_cases he : result.isEmpty
        · simp only [fallbackLoop, if_pos hs, hf, if_pos he]
          rw [ih, lookupSource_update_other _ sid sid2 _ _ now hne]
        · simp only [fallbackLoop, if_pos hs, hf, if_neg he]
          exact lookupSource_update_other _ sid sid2 _ _ now hne
      | exn msg =>
        simp only [fallbackLoop, if_pos hs, hf]
        rw [ih, lookupSource_recordFailure_other _ sid sid2 msg now hne]
    · simp only [fallbackLoop, if_neg hs]
      exact ih m

/-- Only `'jsl'` and `'eastmoney'` are ever queried by the loop. -/
theorem fallbackLoop_queried (fetch : String → FetchOutcome) (now : Nat) :
    ∀ (srcs : List (String × DataSourceConfig)) (m : DataSourceManager),
      ∀ q ∈ (fallbackLoop fetch now m srcs).2.2,
        q = "jsl" ∨ q = "eastmoney" := by
  intro srcs
  induction srcs with
  | nil => intro m q hq; exact absurd hq (by simp [fallbackLoop])
  | cons p rest ih =>
    intro m q hq
    obtain ⟨sid, cfg⟩ := p
    by_cases hs : sid = "jsl" ∨ sid = "eastmoney"
    · cases hf : fetch sid with
      | ok result =>
        by_cases he : result.isEmpty
        · simp only [fallbackLoop, if_pos hs, hf, if_pos he] at hq
          rcases List.mem_cons.mp hq with rfl | hq2
          · exact hs
          · exact ih _ q hq2
        · simp only [fallbackLoop, if_pos hs, hf, if_neg he] at hq
          rcases List.mem_cons.mp hq with rfl | hq2
          · exact hs
          · exact absurd hq2 (List.not_mem_nil q)
      | exn msg =>
        simp only [fallbackLoop, if_pos hs, hf] at hq
        rcases List.mem_cons.mp hq with rfl | hq2
        · exact hs
        · exact ih _ q hq2
    · simp only [fallbackLoop, if_neg hs] at hq
      exact ih m q hq

/-- C10: running `get_bond_list_with_fallback` from the initial registry —
in which `'sina'` and `'tencent'` are registered active with priorities 3
and 4 — queries only `'jsl'` and `'eastmoney'`, whatever the providers do,
and leaves the `'sina'` and `'tencent'` configs (status, error counter,
last error, and all other fields) exactly as they were. -/
theorem c10_fallback_skips_sina_tencent (fetch : String → FetchOutcome) (now : Nat) :
    ((lookupSource initial_sources "sina").map (fun c => (c.status, c.priority))
        = some (.active, 3)) ∧
    ((lookupSource initial_sources "tencent").map (fun c => (c.status, c.priority))
        = some (.active, 4)) ∧
    (∀ q ∈ (get_bond_list_with_fallback initial_sources fetch now).2.2,
      q = "jsl" ∨ q = "eastmoney") ∧
    lookupSource (get_bond_list_with_fallback initial_sources fetch now).1 "sina"
      = lookupSource initial_sources "sina" ∧
    lookupSource (get_bond_list_with_fallback initial_sources fetch now).1 "tencent"
      = lookupSource initial_sources "tencent" := by
  refine ⟨rfl, rfl, ?_, ?_, ?_⟩
  · exact fun q hq => fallbackLoop_queried fetch now _ _ q hq
  · exact fallbackLoop_frame fetch now "sina" (by decide) (by decide) _ _
  · exact fallbackLoop_frame fetch now "tencent" (by decide) (by decide) _ _

/-- C10 witness: with providers that always raise, the `'sina'` config is
untouched by a full fallback run. -/
theorem c10_fallback_skips_sina_tencent_witness :
    lookupSource (get_bond_list_with_fallback initial_sources exFetch 0).1 "sina"
      = lookupSource initial_sources "sina" :=
  (c10_fallback_skips_sina_tencent exFetch 0).2.2.2.1

/-! ### C1 — idempotent insert -/

/-- A key present before one insert step is still present after it. -/
theorem hasKey_insertStep (acc : List SavedRow × Nat) (r : SavedRow) (t b : Nat)
    (h : hasKey acc.1 t b = true) : hasKey (insertStep acc r).1 t b = true := by
  unfold insertStep
  by_cases hk : hasKey acc.1 r.trade_date r.bond_code = true
  · rw [if_pos hk]
    exact h
  · rw [if_neg hk]
    show hasKey (acc.1 ++ [r]) t b = true
    unfold hasKey at h ⊢
    rw [List.any_append, h]
    rfl

/-- A key present before the insert loop is still present after it. -/
theorem hasKey_foldl (df : List SavedRow) :
    ∀ (acc : List SavedRow × Nat) (t b : Nat), hasKey acc.1 t b = true →
      hasKey (df.foldl insertStep acc).1 t b = true := by
  induction df with
  | nil => intro acc t b h; exact h
  | cons r rest ih =>
    intro acc t b h
    rw [List.foldl_cons]
    exact ih _ t b (hasKey_insertStep acc r t b h)

/-- After inserting a record its key is present. -/
theorem hasKey_insertStep_self (acc : List SavedRow × Nat) (r : SavedRow) :
    hasKey (insertStep acc r).1 r.trade_date r.bond_code = true := by
  unfold insertStep
  by_cases hk : hasKey acc.1 r.trade_date r.bond_code = true
  · rw [if_pos hk]
    exact hk
  · rw [if_neg hk]
    show hasKey (acc.1 ++ [r]) r.trade_date r.bond_code = true
    unfold hasKey
    rw [List.any_append]
    simp [keyPred]

/-- After a save, every key of the input frame is present in the table. -/
theorem hasKey_save (df : List SavedRow) :
    ∀ (acc : List SavedRow × Nat), ∀ r ∈ df,
      hasKey (df.foldl insertStep acc).1 r.trade_date r.bond_code = true := by
  induction df with
  | nil => intro acc r h; exact absurd h (List.not_mem_nil r)
  | cons r0 rest ih =>
    intro acc r h
    rw [List.foldl_cons]
    rcases List.mem_cons.mp h with rfl | hmem
    · exact hasKey_foldl rest _ _ _ (hasKey_insertStep_self acc r)
    · exact ih _ r hmem

/-- Saving a frame whose keys all conflict is a complete no-op. -/
theorem save_noop (df : List SavedRow) :
    ∀ (t : List SavedRow) (n : Nat),
      (∀ r ∈ df, hasKey t r.trade_date r.bond_code = true) →
      df.foldl insertStep (t, n) = (t, n) := by
  induction df with
  | nil => intro t n _; rfl
  | cons r rest ih =>
    intro t n hall
    rw [List.foldl_cons]
    have hr := hall r (List.mem_cons_self r rest)
    have hstep : insertStep (t, n) r = (t, n) := by
      unfold insertStep
      rw [if_pos hr]
    rw [hstep]
    exact ih t n (fun x hx => hall x (List.mem_cons_of_mem r hx))

/-- The insert loop only ever appends to the table. -/
theorem save_suffix (df : List SavedRow) :
    ∀ acc : List SavedRow × Nat, ∃ u, (df.foldl insertStep acc).1 = acc.1 ++ u := by
  induction df with
  | nil => intro acc; exact ⟨[], (List.append_nil acc.1).symm⟩
  | cons r rest ih =>
    intro acc
    rw [List.foldl_cons]
    obtain ⟨u, hu⟩ := ih (insertStep acc r)
    by_cases hk : hasKey acc.1 r.trade_date r.bond_code = true
    · have hstep : insertStep acc r = acc := by
        unfold insertStep
        rw [if_pos hk]
      rw [hstep]
      exact ih acc
    · have hstep : (insertStep acc r).1 = acc.1 ++ [r] := by
        unfold insertStep
        rw [if_neg hk]
      rw [hstep] at hu
      exact ⟨r :: u, by rw [hu, List.append_assoc, List.singleton_append]⟩

/-- Appending rows does not change what a point query on an existing key
returns. -/
theorem findKey_append_of_hasKey (tbl u : List SavedRow) (t b : Nat)
    (h : hasKey tbl t b = true) :
    findKey (tbl ++ u) t b = findKey tbl t b := by
  unfold findKey
  rw [List.find?_append]
  cases hf : tbl.find? (keyPred t b) with
  | none =>
    have hsome : (tbl.find? (keyPred t b)).isSome = true := by
      rw [List.find?_isSome]
      exact List.any_eq_true.mp h
    rw [hf] at hsome
    simp at hsome
  | some x => rw [Option.or_some]

/-- A key absent from the table has zero matching rows. -/
theorem countKey_zero_of_not_hasKey (tbl : List SavedRow) (t b : Nat)
    (h : hasKey tbl t b = false) : countKey tbl t b = 0 := by
  unfold countKey
  rw [List.length_eq_zero, List.filter_eq_nil_iff]
  intro x hx hpx
  have hk : hasKey tbl t b = true := List.any_eq_true.mpr ⟨x, hx, hpx⟩
  rw [h] at hk
  exact Bool.false_ne_true hk

/-- Appending one row to the table adds at most that row to a key's
multiplicity. -/
theorem countKey_append_single (tbl : List SavedRow) (r : SavedRow) (t b : Nat) :
    countKey (tbl ++ [r]) t b
      = countKey tbl t b + (if keyPred t b r = true then 1 else 0) := by
  unfold countKey
  rw [List.filter_append, List.length_append]
  congr 1
  by_cases hk : keyPred t b r = true
  · rw [if_pos hk]
    simp [List.filter_cons, hk]
  · rw [if_neg hk]
    simp [List.filter_cons, hk]

/-- One insert step preserves key uniqueness. -/
theorem countKey_insertStep (acc : List SavedRow × Nat) (r : SavedRow)
    (hb : ∀ t b, countKey acc.1 t b ≤ 1) :
    ∀ t b, countKey (insertStep acc r).1 t b ≤ 1 := by
  intro t b
  unfold insertStep
  by_cases hk : hasKey acc.1 r.trade_date r.bond_code = true
  · rw [if_pos hk]
    exact hb t b
  · rw [if_neg hk]
    show countKey (acc.1 ++ [r]) t b ≤ 1
    rw [countKey_append_single]
    by_cases hp : keyPred t b r = true
    · rw [if_pos hp]
      simp only [keyPred, Bool.and_eq_true, decide_eq_true_eq] at hp
      rw [Bool.not_eq_true] at hk
      have hzero : countKey acc.1 t b = 0 := by
        apply countKey_zero_of_not_hasKey
        rw [← hp.1, ← hp.2]
        exact hk
      omega
    · rw [if_neg hp]
      have := hb t b
      omega

/-- The insert loop preserves key uniqueness. -/
theorem countKey_foldl (df : List SavedRow) :
    ∀ acc : List SavedRow × Nat, (∀ t b, countKey acc.1 t b ≤ 1) →
      ∀ t b, countKey (df.foldl insertStep acc).1 t b ≤ 1 := by
  induction df with
  | nil => intro acc h; exact h
  | cons r rest ih =>
    intro acc h
    rw [List.foldl_cons]
    exact ih _ (countKey_insertStep acc r h)

/-- A present key has at least one matching row. -/
theorem one_le_countKey (tbl : List SavedRow) (t b : Nat)
    (h : hasKey tbl t b = true) : 1 ≤ countKey tbl t b := by
  obtain ⟨x, hx, hpx⟩ := List.any_eq_true.mp h
  have hmem : x ∈ tbl.filter (keyPred t b) := List.mem_filter.mpr ⟨hx, hpx⟩
  exact List.length_pos.mpr (List.ne_nil_of_mem hmem)

/-- C1: the historical insert is idempotent on `(trade_date, bond_code)`.
An empty frame returns 0 and leaves the store untouched; a point query on
any pre-existing key is unchanged by a save (first-write-wins); saving the
same frame a second time leaves the table identical and inserts 0 rows;
and, starting from a key-unique table, after saving the same rows twice
every key of the frame matches exactly one row. -/
theorem c1_save_idempotent (tbl df : List SavedRow) :
    save_to_database tbl [] = (tbl, 0) ∧
    (∀ t b, hasKey tbl t b = true →
      findKey (save_to_database tbl df).1 t b = findKey tbl t b) ∧
    save_to_database (save_to_database tbl df).1 df
      = ((save_to_database tbl df).1, 0) ∧
    ((∀ t b, countKey tbl t b ≤ 1) → ∀ r ∈ df,
      countKey (save_to_database (save_to_database tbl df).1 df).1
        r.trade_date r.bond_code = 1) := by
  have hkeys : ∀ r ∈ df,
      hasKey (save_to_database tbl df).1 r.trade_date r.bond_code = true :=
    fun r hr => hasKey_save df (tbl, 0) r hr
  have hsecond : save_to_database (save_to_database tbl df).1 df
      = ((save_to_database tbl df).1, 0) :=
    save_noop df (save_to_database tbl df).1 0 hkeys
  refine ⟨rfl, ?_, hsecond, ?_⟩
  · intro t b h
    obtain ⟨u, hu⟩ := save_suffix df (tbl, 0)
    rw [show (save_to_database tbl df).1 = tbl ++ u from hu]
    exact findKey_append_of_hasKey tbl u t b h
  · intro hb r hr
    simp only [hsecond]
    have hle : countKey (save_to_database tbl df).1 r.trade_date r.bond_code ≤ 1 :=
      countKey_foldl df (tbl, 0) hb r.trade_date r.bond_code
    have hge : 1 ≤ countKey (save_to_database tbl df).1 r.trade_date r.bond_code :=
      one_le_countKey _ _ _ (hkeys r hr)
    omega

/-- C1 witness: over a store holding key `(1, 100)` and a frame that
re-sends that key plus a fresh one, the stored row is untouched and the
double-saved table holds exactly one row for the fresh key. -/
theorem c1_save_idempotent_witness :
    findKey (save_to_database exTbl exDf).1 1 100 = findKey exTbl 1 100 ∧
    countKey (save_to_database (save_to_database exTbl exDf).1 exDf).1 2 100 = 1 :=
  ⟨(c1_save_idempotent exTbl exDf).2.1 1 100 (by decide),
   (c1_save_idempotent exTbl exDf).2.2.2
     (fun t b => le_trans (List.length_filter_le _ _) (by simp [exTbl]))
     ⟨2, 100, some 7⟩ (List.mem_cons_of_mem _ (List.mem_cons_self _ _))⟩

/-! ### C2 — primary/valuation merge -/

/-- Join-then-fill computes, row for row, "primary price wins, valuation
price fills only nulls". -/
theorem mergeFill_eq_primary_wins (value_df : List ValRow) :
    ∀ hist_df : List HistRow,
      mergeFill hist_df value_df = hist_df.flatMap (fun h =>
        match valMatches value_df h.trade_date with
        | [] => [⟨h.trade_date, h.price, none⟩]
        | ms => ms.map (fun v =>
            (⟨h.trade_date,
              match h.price with
              | some p => some p
              | none => v.price_val,
              v.premium_rate⟩ : MRow))) := by
  intro hist_df
  induction hist_df with
  | nil => rfl
  | cons h hs ih =>
    have hsplit : mergeFill (h :: hs) value_df
        = (match valMatches value_df h.trade_date with
           | [] => [(⟨h.trade_date, h.price, none, none⟩ : JRow)]
           | ms => ms.map (fun (v : ValRow) =>
               (⟨h.trade_date, h.price, v.price_val, v.premium_rate⟩ : JRow))).map
            fillPrice
          ++ mergeFill hs value_df := by
      simp only [mergeFill, leftJoinVal, List.flatMap_cons, List.map_append]
    rw [hsplit, List.flatMap_cons, ih]
    congr 1
    cases hm : valMatches value_df h.trade_date with
    | nil => cases hp : h.price <;> simp [fillPrice, hp]
    | cons v vs =>
      rw [List.map_map]
      rfl

/-- C2: for non-empty primary and valuation tables the merge left-joins on
`trade_date` and takes the valuation price only where the primary price is
null, keeping the primary price wherever it is non-null; on the claim's
tables the merged prices are `[10, 11, 12]`. -/
theorem c2_merge_fill_primary_wins (hist_df : List HistRow)
    (value_df : List ValRow) (hh : hist_df ≠ []) (hv : value_df ≠ []) :
    merge_bond_data hist_df value_df
      = calculate_derived_metrics (mergeFill hist_df value_df) ∧
    mergeFill hist_df value_df = hist_df.flatMap (fun h =>
      match valMatches value_df h.trade_date with
      | [] => [⟨h.trade_date, h.price, none⟩]
      | ms => ms.map (fun v =>
          (⟨h.trade_date,
            match h.price with
            | some p => some p
            | none => v.price_val,
            v.premium_rate⟩ : MRow))) ∧
    (mergeFill exHist exVal).map (fun r => r.price)
      = [some 10, some 11, some 12] := by
  have hhe : hist_df.isEmpty = false := by
    rw [← Bool.not_eq_true, List.isEmpty_iff]
    exact hh
  have hve : value_df.isEmpty = false := by
    rw [← Bool.not_eq_true, List.isEmpty_iff]
    exact hv
  refine ⟨?_, mergeFill_eq_primary_wins value_df hist_df, ?_⟩
  · simp [merge_bond_data, hhe, hve]
  · norm_num [mergeFill, leftJoinVal, valMatches, fillPrice, exHist, exVal,
      List.flatMap_cons, List.filter_cons]

/-- C2 witness: the theorem applied to the claim's concrete tables. -/
theorem c2_merge_fill_primary_wins_witness :
    (mergeFill exHist exVal).map (fun r => r.price)
      = [some 10, some 11, some 12] :=
  (c2_merge_fill_primary_wins exHist exVal (by decide) (by decide)).2.2

/-! ### C3 — derived metrics -/

/-- `pct_change` preserves column length. -/
theorem pctList_length : ∀ (prev : Option ℚ) (l : List (Option ℚ)),
    (pctList prev l).length = l.length := by
  intro prev l
  induction l generalizing prev with
  | nil => rfl
  | cons x xs ih => simp [pctList, ih]

/-- With no prior value, the first `pct_change` cell is null. -/
theorem pctList_none_head (x : Option ℚ) (xs : List (Option ℚ)) :
    ∃ t, pctList none (x :: xs) = none :: t := by
  cases x with
  | none => exact ⟨pctList (padNext none none) xs, rfl⟩
  | some v => exact ⟨pctList (some v) xs, rfl⟩

/-- Two consecutive non-null prices yield the percentage change at the
later cell, whatever came before. -/
theorem pctList_getElem?_succ :
    ∀ (l : List (Option ℚ)) (prev : Option ℚ) (i : Nat) (a b : ℚ),
      l[i]? = some (some b) → l[i + 1]? = some (some a) →
      (pctList prev l)[i + 1]? = some (some ((a / b - 1) * 100)) := by
  intro l
  induction l with
  | nil =>
    intro prev i a b h1 h2
    simp at h1
  | cons x xs ih =>
    intro prev i a b h1 h2
    cases i with
    | zero =>
      rw [List.getElem?_cons_zero] at h1
      have hx : x = some b := by injection h1
      subst hx
      rw [List.getElem?_cons_succ] at h2
      rw [show pctList prev (some b :: xs)
          = pctCell (some b) prev :: pctList (some b) xs from rfl,
        List.getElem?_cons_succ]
      cases xs with
      | nil => simp at h2
      | cons y ys =>
        rw [List.getElem?_cons_zero] at h2
        have hy : y = some a := by injection h2
        subst hy
        rw [show pctList (some b) (some a :: ys)
            = pctCell (some a) (some b) :: pctList (some a) ys from rfl,
          List.getElem?_cons_zero]
        rfl
    | succ j =>
      rw [List.getElem?_cons_succ] at h1 h2
      rw [show pctList prev (x :: xs)
          = pctCell (padNext prev x) prev :: pctList (padNext prev x) xs
          from rfl,
        List.getElem?_cons_succ]
      exact ih _ j a b h1 h2

/-- Reading a cell of the column-assigned table. -/
theorem attachChg_getElem? :
    ∀ (rs : List MRow) (cs : List (Option ℚ)) (i : Nat) (r : MRow)
      (c : Option ℚ),
      rs[i]? = some r → cs[i]? = some c →
      (attachChg rs cs)[i]?
        = some ⟨r.trade_date, r.price, r.premium_rate, c,
            doubleLow r.price r.premium_rate⟩ := by
  intro rs
  induction rs with
  | nil =>
    intro cs i r c h1 h2
    simp at h1
  | cons r0 rest ih =>
    intro cs i r c h1 h2
    cases cs with
    | nil => simp at h2
    | cons c0 ctail =>
      cases i with
      | zero =>
        rw [List.getElem?_cons_zero] at h1 h2
        have hr : r0 = r := by injection h1
        have hc : c0 = c := by injection h2
        subst hr
        subst hc
        rw [show attachChg (r0 :: rest) (c0 :: ctail)
            = ⟨r0.trade_date, r0.price, r0.premium_rate, c0,
                doubleLow r0.price r0.premium_rate⟩ :: attachChg rest ctail
            from rfl,
          List.getElem?_cons_zero]
      | succ j =>
        rw [List.getElem?_cons_succ] at h1 h2
        rw [show attachChg (r0 :: rest) (c0 :: ctail)
            = ⟨r0.trade_date, r0.price, r0.premium_rate, c0,
                doubleLow r0.price r0.premium_rate⟩ :: attachChg rest ctail
            from rfl,
          List.getElem?_cons_succ]
        exact ih ctail j r c h1 h2

/-- Every cell of the column-assigned table comes from a source row and a
`pct_change` cell at the same position. -/
theorem attachChg_getElem?_inv :
    ∀ (rs : List MRow) (cs : List (Option ℚ)) (i : Nat) (x : DRow),
      (attachChg rs cs)[i]? = some x →
      ∃ r c, rs[i]? = some r ∧ cs[i]? = some c ∧
        x = ⟨r.trade_date, r.price, r.premium_rate, c,
          doubleLow r.price r.premium_rate⟩ := by
  intro rs
  induction rs with
  | nil =>
    intro cs i x hx
    simp [attachChg] at hx
  | cons r0 rest ih =>
    intro cs i x hx
    cases cs with
    | nil => simp [attachChg] at hx
    | cons c0 ctail =>
      rw [show attachChg (r0 :: rest) (c0 :: ctail)
          = ⟨r0.trade_date, r0.price, r0.premium_rate, c0,
              doubleLow r0.price r0.premium_rate⟩ :: attachChg rest ctail
          from rfl] at hx
      cases i with
      | zero =>
        rw [List.getElem?_cons_zero] at hx
        refine ⟨r0, c0, List.getElem?_cons_zero, List.getElem?_cons_zero, ?_⟩
        injection hx with hx
        exact hx.symm
      | succ j =>
        rw [List.getElem?_cons_succ] at hx
        obtain ⟨r, c, hr, hc, he⟩ := ih ctail j x hx
        exact ⟨r, c, by rw [List.getElem?_cons_succ]; exact hr,
          by rw [List.getElem?_cons_succ]; exact hc, he⟩

/-- Membership version of the previous lemma. -/
theorem attachChg_mem :
    ∀ (rs : List MRow) (cs : List (Option ℚ)), ∀ x ∈ attachChg rs cs,
      ∃ r ∈ rs, ∃ c, x = ⟨r.trade_date, r.price, r.premium_rate, c,
        doubleLow r.price r.premium_rate⟩ := by
  intro rs
  induction rs with
  | nil =>
    intro cs x hx
    simp [attachChg] at hx
  | cons r0 rest ih =>
    intro cs x hx
    cases cs with
    | nil => simp [attachChg] at hx
    | cons c0 ctail =>
      rw [show attachChg (r0 :: rest) (c0 :: ctail)
          = ⟨r0.trade_date, r0.price, r0.premium_rate, c0,
              doubleLow r0.price r0.premium_rate⟩ :: attachChg rest ctail
          from rfl] at hx
      rcases List.mem_cons.mp hx with rfl | hmem
      · exact ⟨r0, List.mem_cons_self r0 rest, c0, rfl⟩
      · obtain ⟨r, hr, c, hc⟩ := ih ctail x hmem
        exact ⟨r, List.mem_cons_of_mem r0 hr, c, hc⟩

/-- Column assignment keeps the trade-date column. -/
theorem attachChg_map_trade_date :
    ∀ (rs : List MRow) (cs : List (Option ℚ)), rs.length = cs.length →
      (attachChg rs cs).map (fun r => r.trade_date)
        = rs.map (fun r => r.trade_date) := by
  intro rs
  induction rs with
  | nil => intro cs _; rfl
  | cons r0 rest ih =>
    intro cs h
    cases cs with
    | nil => simp at h
    | cons c0 ctail =>
      rw [show attachChg (r0 :: rest) (c0 :: ctail)
          = ⟨r0.trade_date, r0.price, r0.premium_rate, c0,
              doubleLow r0.price r0.premium_rate⟩ :: attachChg rest ctail
          from rfl]
      simp only [List.map_cons]
      rw [ih ctail (by simpa using h)]

/-- C3: derived metrics are computed after sorting ascending by trade
date; the first row's `price_chg_pct` is null; consecutive non-null prices
yield the day-over-day percentage change; `double_low` is the
null-propagating sum of price and premium rate; and the claim's price
sequence `[100, 110, 99]` yields `price_chg_pct = [null, 10, -10]`. -/
theorem c3_derived_metrics (rows : List MRow) :
    List.Sorted (· ≤ ·)
      ((calculate_derived_metrics rows).map (fun r => r.trade_date)) ∧
    (∀ r0, (calculate_derived_metrics rows)[0]? = some r0 →
      r0.price_chg_pct = none) ∧
    (∀ (i : Nat) (ri rj : DRow) (a b : ℚ),
      (calculate_derived_metrics rows)[i]? = some ri →
      (calculate_derived_metrics rows)[i + 1]? = some rj →
      ri.price = some b → rj.price = some a → b ≠ 0 →
      rj.price_chg_pct = some ((a - b) / b * 100)) ∧
    (∀ r ∈ calculate_derived_metrics rows,
      (∀ a b : ℚ, r.price = some a → r.premium_rate = some b →
        r.double_low = some (a + b)) ∧
      ((r.price = none ∨ r.premium_rate = none) → r.double_low = none)) ∧
    (calculate_derived_metrics exMRows).map (fun r => r.price_chg_pct)
      = [none, some 10, some (-10)] := by
  have hlen : ∀ rows2 : List MRow,
      (sortByDate rows2).length
        = (pctList none ((sortByDate rows2).map (fun r => r.price))).length := by
    intro rows2
    rw [pctList_length, List.length_map]
  refine ⟨?_, ?_, ?_, ?_, ?_⟩
  · rw [calculate_derived_metrics, attachChg_map_trade_date _ _ (hlen rows)]
    have hs : List.Sorted dateLe (sortByDate rows) :=
      List.sorted_insertionSort dateLe rows
    exact @List.Pairwise.map Nat MRow dateLe (sortByDate rows) (fun u v => u ≤ v)
      (fun r => r.trade_date) (fun a b h => h) hs
  · intro r0 h
    rw [calculate_derived_metrics] at h
    cases hsort : sortByDate rows with
    | nil => rw [hsort] at h; simp [attachChg] at h
    | cons m ms =>
      rw [hsort] at h
      obtain ⟨t, ht⟩ := pctList_none_head m.price (ms.map (fun r => r.price))
      rw [List.map_cons, ht] at h
      have := attachChg_getElem? (m :: ms) (none :: t) 0 m none
        (List.getElem?_cons_zero) (List.getElem?_cons_zero)
      rw [this] at h
      injection h with h
      rw [← h]
  · intro i ri rj a b hi hj hpi hpj hb
    rw [calculate_derived_metrics] at hi hj
    obtain ⟨r1, c1, hr1, hc1, he1⟩ := attachChg_getElem?_inv _ _ i ri hi
    obtain ⟨r2, c2, hr2, hc2, he2⟩ := attachChg_getElem?_inv _ _ (i + 1) rj hj
    have hp1 : r1.price = some b := by rw [he1] at hpi; exact hpi
    have hp2 : r2.price = some a := by rw [he2] at hpj; exact hpj
    have hm1 : ((sortByDate rows).map (fun r => r.price))[i]? = some (some b) := by
      rw [List.getElem?_map, hr1, Option.map_some', hp1]
    have hm2 : ((sortByDate rows).map (fun r => r.price))[i + 1]?
        = some (some a) := by
      rw [List.getElem?_map, hr2, Option.map_some', hp2]
    have hc := pctList_getElem?_succ _ none i a b hm1 hm2
    rw [hc2] at hc
    injection hc with hc
    have harith : (a / b - 1) * 100 = (a - b) / b * 100 := by
      field_simp
    rw [he2]
    show c2 = some ((a - b) / b * 100)
    rw [hc, harith]
  · intro r hr
    rw [calculate_derived_metrics] at hr
    obtain ⟨r0, _, c, hc⟩ := attachChg_mem _ _ r hr
    subst hc
    constructor
    · intro a b hpa hpb
      show doubleLow r0.price r0.premium_rate = some (a + b)
      rw [show r0.price = some a from hpa, show r0.premium_rate = some b from hpb]
      rfl
    · intro hnone
      show doubleLow r0.price r0.premium_rate = none
      rcases hnone with hp | hq
      · rw [show r0.price = none from hp]
        rfl
      · rw [show r0.premium_rate = none from hq]
        cases r0.price <;> rfl
  · norm_num [calculate_derived_metrics, sortByDate, exMRows,
      List.insertionSort, List.orderedInsert, dateLe, pctList, pctCell,
      padNext, attachChg, doubleLow]

/-- C3 witness: the theorem's first-row clause applied to the claim's
concrete sequence. -/
theorem c3_derived_metrics_witness :
    (⟨1, some 100, none, none, none⟩ : DRow).price_chg_pct = none :=
  (c3_derived_metrics exMRows).2.1 ⟨1, some 100, none, none, none⟩ (by rfl)

/-! ### C6 — null-only static backfill -/

/-- Reading the column just written. -/
theorem getHist_setHist_same (r : HistoricalRow) (f : BackfillField)
    (v : FieldVal) : getHist (setHist r f v) f = some v := by
  cases f <;> rfl

/-- Writing one column leaves the others unchanged. -/
theorem getHist_setHist_other (r : HistoricalRow) (f f0 : BackfillField)
    (v : FieldVal) (h : f0 ≠ f) :
    getHist (setHist r f v) f0 = getHist r f0 := by
  cases f <;> cases f0 <;> first | rfl | exact absurd rfl h

/-- Writing a backfillable column never touches the bond code. -/
theorem setHist_bond_code (r : HistoricalRow) (f : BackfillField)
    (v : FieldVal) : (setHist r f v).bond_code = r.bond_code := by
  cases f <;> rfl

/-- Writing a backfillable column never touches the trade date. -/
theorem setHist_trade_date (r : HistoricalRow) (f : BackfillField)
    (v : FieldVal) : (setHist r f v).trade_date = r.trade_date := by
  cases f <;> rfl

/-- A property preserved by every step of a fold is preserved by the whole
fold. -/
theorem foldl_preserve {α : Type} {β : Type} (P : α → Prop) :
    ∀ (l : List β) (step : α → β → α) (a : α),
      (∀ x ∈ l, ∀ a2, P a2 → P (step a2 x)) → P a → P (l.foldl step a) := by
  intro l
  induction l with
  | nil => intro step a _ h; exact h
  | cons x xs ih =>
    intro step a hstep h
    rw [List.foldl_cons]
    exact ih step (step a x)
      (fun y hy a2 h2 => hstep y (List.mem_cons_of_mem x hy) a2 h2)
      (hstep x (List.mem_cons_self x xs) a h)

/-- One snapshot row's UPDATE preserves the backfill invariant. -/
theorem backfillRowStep_inv (snap : List SnapshotRow) (r : HistoricalRow)
    (f : BackfillField) (s : SnapshotRow) (hs : s ∈ snap)
    (r2 : HistoricalRow) (hP : rowInv snap r r2) :
    rowInv snap r (backfillRowStep f s r2) := by
  obtain ⟨hcode, hdate, hfields⟩ := hP
  unfold backfillRowStep
  cases hg : getSnap s f with
  | none => exact ⟨hcode, hdate, hfields⟩
  | some v =>
    show rowInv snap r (updateRowWhereNull f s.bond_code v r2)
    unfold updateRowWhereNull
    by_cases hcond : r2.bond_code = s.bond_code ∧ getHist r2 f = none
    · rw [if_pos hcond]
      refine ⟨?_, ?_, ?_⟩
      · rw [setHist_bond_code]
        exact hcode
      · rw [setHist_trade_date]
        exact hdate
      · intro f0
        by_cases hf : f0 = f
        · subst hf
          right
          have hrnone : getHist r f0 = none := by
            rcases hfields f0 with h | ⟨h, _⟩
            · rw [← h]
              exact hcond.2
            · exact h
          refine ⟨hrnone, s, hs, ?_, v, hg, getHist_setHist_same r2 f0 v⟩
          rw [← hcond.1]
          exact hcode
        · rw [getHist_setHist_other r2 f f0 v hf]
          exact hfields f0
    · rw [if_neg hcond]
      exact ⟨hcode, hdate, hfields⟩

/-- The whole double loop respects the backfill invariant on each row. -/
theorem backfillRow_inv (snap : List SnapshotRow) (r : HistoricalRow) :
    rowInv snap r (backfillRow snap r) := by
  unfold backfillRow
  refine foldl_preserve (rowInv snap r) backfill_fields _ r ?_
    ⟨rfl, rfl, fun f => Or.inl rfl⟩
  intro f _ r2 h2
  exact foldl_preserve (rowInv snap r) snap _ r2
    (fun s hs r3 h3 => backfillRowStep_inv snap r f s hs r3 h3) h2

/-- One field's pass over the table is the row-wise map of its per-row
effect. -/
theorem backfillFieldPass_map (f : BackfillField) :
    ∀ (snap : List SnapshotRow) (tbl : List HistoricalRow),
      backfillFieldPass snap tbl f
        = tbl.map (fun r => snap.foldl (fun r3 s => backfillRowStep f s r3) r) := by
  intro snap
  induction snap with
  | nil =>
    intro tbl
    simp [backfillFieldPass]
  | cons s ss ih =>
    intro tbl
    cases hg : getSnap s f with
    | none =>
      rw [show backfillFieldPass (s :: ss) tbl f = backfillFieldPass ss tbl f
          from by simp [backfillFieldPass, hg], ih]
      simp only [List.foldl_cons, backfillRowStep, hg]
    | some v =>
      rw [show backfillFieldPass (s :: ss) tbl f
            = backfillFieldPass ss (updateTableWhereNull f s.bond_code v tbl) f
          from by simp [backfillFieldPass, hg], ih]
      unfold updateTableWhereNull
      rw [List.map_map]
      simp only [List.foldl_cons, backfillRowStep, hg, Function.comp]
      rfl

/-- The whole backfill is the row-wise map of its per-row effect. -/
theorem static_backfill_map (snap : List SnapshotRow) :
    ∀ (fs : List BackfillField) (tbl : List HistoricalRow),
      fs.foldl (backfillFieldPass snap) tbl
        = tbl.map (fun r =>
            fs.foldl
              (fun r2 f => snap.foldl (fun r3 s => backfillRowStep f s r3) r2) r) := by
  intro fs
  induction fs with
  | nil =>
    intro tbl
    simp
  | cons f fs ih =>
    intro tbl
    rw [List.foldl_cons, ih, backfillFieldPass_map f snap tbl, List.map_map]
    simp only [List.foldl_cons, Function.comp]
    rfl

/-- C6: the static backfill keeps table length, keys, and every already
non-null value of the six backfillable fields; any cell it changes was
null and now carries a non-null snapshot value of the same bond; and in
particular a row rated `'AA'` is untouched by a snapshot rating `'AAA'`. -/
theorem c6_static_backfill (tbl : List HistoricalRow) (snap : List SnapshotRow) :
    (static_backfill tbl snap).length = tbl.length ∧
    (∀ (i : Nat) (r r2 : HistoricalRow),
      tbl[i]? = some r → (static_backfill tbl snap)[i]? = some r2 →
      r2.bond_code = r.bond_code ∧ r2.trade_date = r.trade_date ∧
      (∀ (f : BackfillField) (v : FieldVal), getHist r f = some v →
        getHist r2 f = some v) ∧
      (∀ f : BackfillField, getHist r2 f ≠ getHist r f →
        getHist r f = none ∧ ∃ s ∈ snap, s.bond_code = r.bond_code ∧
          ∃ v, getSnap s f = some v ∧ getHist r2 f = some v)) ∧
    static_backfill exHistTbl exSnap = exHistTbl := by
  have hmap : static_backfill tbl snap = tbl.map (backfillRow snap) :=
    static_backfill_map snap backfill_fields tbl
  refine ⟨by rw [hmap, List.length_map], ?_, by rfl⟩
  intro i r r2 hi h2
  rw [hmap, List.getElem?_map, hi, Option.map_some'] at h2
  have hr2 : r2 = backfillRow snap r := by
    injection h2 with h2
    exact h2.symm
  subst hr2
  obtain ⟨hcode, hdate, hfields⟩ := backfillRow_inv snap r
  refine ⟨hcode, hdate, ?_, ?_⟩
  · intro f v hv
    rcases hfields f with h | ⟨hnone, _⟩
    · rw [h]
      exact hv
    · rw [hv] at hnone
      exact absurd hnone (Option.some_ne_none v)
  · intro f hne
    rcases hfields f with h | hright
    · exact absurd h hne
    · exact hright

/-- C6 witness: the theorem applied to the claim's concrete row and
snapshot — the stored `'AA'` rating survives the backfill. -/
theorem c6_static_backfill_witness :
    getHist ⟨1, "127001", some (.s "AA"), none, none, none, none, none⟩
        BackfillField.bond_rating = some (.s "AA") :=
  ((c6_static_backfill exHistTbl exSnap).2.1 0
    ⟨1, "127001", some (.s "AA"), none, none, none, none, none⟩
    ⟨1, "127001", some (.s "AA"), none, none, none, none, none⟩
    (by rfl) (by rfl)).2.2.1 BackfillField.bond_rating (FieldVal.s "AA") rfl

end Stock
